import Mathlib

/-!
Verification of the border-inference and bounds-pruning engine of
`clean_dwg.py` (DWG cleaner).

The embedding translates the decision logic of `clean_dwg.py` into pure
Lean functions over an explicit entity snapshot:

* coordinates are exact rationals (`ℚ`); the Python floats are modelled
  exactly, and `sqrt d <= tol` comparisons are encoded as the equivalent
  `0 <= tol ∧ d <= tol^2`;
* COM queries that may raise (`GetBoundingBox`) are modelled as `Option`
  fields; an exception corresponds to `none` and follows the source's
  `try/except` structure;
* the `EntityName` string dispatch of the source ("Line" / "Polyline" /
  "AcDbFace" / "BlockReference") is modelled as an entity category;
* Python's stable `list.sort` is modelled by a stable insertion sort
  (stable sorts agree on the result, so the embedding is exact);
  sorting by line length (a monotone image under `sqrt`) is modelled by
  sorting by squared length, which yields the same order and tie classes;
* Python `set` values used only for membership tests are modelled as
  lists.
-/

/-- Axis-aligned bounding box `(min_x, min_y, max_x, max_y)` as used
throughout `clean_dwg.py`. -/
structure BBox where
  minX : ℚ
  minY : ℚ
  maxX : ℚ
  maxY : ℚ
deriving DecidableEq

def bboxW (b : BBox) : ℚ := b.maxX - b.minX

def bboxH (b : BBox) : ℚ := b.maxY - b.minY

def bboxArea (b : BBox) : ℚ := bboxW b * bboxH b

/-- `aspect = max(width, height) / min(width, height) if min > 0 else 999`,
the guard used by the block and layer detectors. -/
def bboxAspect (b : BBox) : ℚ :=
  if 0 < min (bboxW b) (bboxH b) then max (bboxW b) (bboxH b) / min (bboxW b) (bboxH b)
  else 999

/-- Entity category, modelling the `EntityName`-string dispatch of the
source: `"Line" in t and "Polyline" not in t` (line), `"Polyline" in t`
(polyline), `"AcDbFace"`/`"Face" in t` (face), `"BlockReference" in t`
(block reference); anything else never matches a detector. A line's
`StartPoint`/`EndPoint` queries are carried as data `(sx, sy, ex, ey)`;
a block reference carries its `Name`. -/
inductive EGeom where
  | line (sx sy ex ey : ℚ)
  | polyline
  | face
  | blockRef (name : String)
  | other
deriving DecidableEq

/-- A snapshot entity: `Handle`, `Layer`, category-specific geometry and
the result of `GetBoundingBox` (`none` when the query raises). -/
structure Entity where
  handle : String
  layer : String
  geom : EGeom
  bb : Option BBox
deriving DecidableEq

/- ### String matching helpers (Python `in`, `==`, `startswith` on
upper-cased names) -/

/-- Boolean prefix test on character lists (`needle` a prefix of `hay`). -/
def isPrefixL : List Char → List Char → Bool
  | [], _ => true
  | _ :: _, [] => false
  | a :: as, b :: bs => a == b && isPrefixL as bs

/-- Boolean substring test: Python's `needle in hay`. -/
def containsSub (needle : List Char) : List Char → Bool
  | [] => isPrefixL needle []
  | c :: rest => isPrefixL needle (c :: rest) || containsSub needle rest

/-- Python `.upper()` (the layer/block names in play are ASCII). -/
def toUpperL (l : List Char) : List Char := l.map Char.toUpper

def strBORDER : List Char := "BORDER".toList

def strFRAME : List Char := "FRAME".toList

def strTITLE : List Char := "TITLE".toList

def strDEFPOINTS : List Char := "DEFPOINTS".toList

def strLEVEL : List Char := "LEVEL ".toList

/-- Layer test of `find_border_by_layer`:
`"BORDER" in u or "FRAME" in u or u == "DEFPOINTS" or u.startswith("LEVEL ")`
on the upper-cased layer name. -/
def layerMatches (layer : String) : Bool :=
  let u := toUpperL layer.toList
  containsSub strBORDER u || containsSub strFRAME u ||
    u == strDEFPOINTS || isPrefixL strLEVEL u

/-- Block-name test of `find_border_block_reference`:
`"BORDER" in u or "FRAME" in u or "TITLE" in u` on the upper-cased name. -/
def blockNameMatches (name : String) : Bool :=
  let u := toUpperL name.toList
  containsSub strBORDER u || containsSub strFRAME u || containsSub strTITLE u

/- ### Detector 1: `find_border_block_reference` -/

/-- One iteration of the best-block fold: keeps the matching block
reference of largest area subject to `width > 100`, `height > 100`,
`aspect < 5` (`area > best_area` is strict, so the first of equal areas
wins). -/
def bestAreaOf (best : Option (BBox × String × ℚ)) : ℚ :=
  match best with
  | none => 0
  | some (_, _, a) => a

def blockStep (best : Option (BBox × String × ℚ)) (e : Entity) :
    Option (BBox × String × ℚ) :=
  match e.geom, e.bb with
  | EGeom.blockRef name, some b =>
    if blockNameMatches name then
      if bestAreaOf best < bboxArea b ∧ 100 < bboxW b ∧ 100 < bboxH b then
        if bboxAspect b < 5 then some (b, e.handle, bboxArea b) else best
      else best
    else best
  | _, _ => best

def find_border_block_reference (s : List Entity) : Option (BBox × List String) :=
  (s.foldl blockStep none).map (fun p => (p.1, [p.2.1]))

/- ### Detector 2: `find_border_by_layer` -/

/-- The matching-layer entities whose `GetBoundingBox` succeeded, with
their handles, in snapshot order. -/
def matchedLayerBoxes (s : List Entity) : List (String × BBox) :=
  s.filterMap (fun e =>
    if layerMatches e.layer then e.bb.map (fun b => (e.handle, b)) else none)

/-- Component-wise union of two boxes (min of mins, max of maxs). -/
def joinBox (a b : BBox) : BBox :=
  ⟨min a.minX b.minX, min a.minY b.minY, max a.maxX b.maxX, max a.maxY b.maxY⟩

/-- Union bounding box of all matching-layer entities (`none` when no
entity matches). The source computes four separate `min`/`max` passes
over the same list; the single fold below computes the same values. -/
def layerUnion (s : List Entity) : Option BBox :=
  match matchedLayerBoxes s with
  | [] => none
  | p :: rest => some (rest.foldl (fun acc q => joinBox acc q.2) p.2)

def find_border_by_layer (s : List Entity) : Option (BBox × List String) :=
  match layerUnion s with
  | none => none
  | some u =>
    if bboxW u < 100 ∨ bboxH u < 100 then none
    else if 5 < bboxAspect u then none
    else some (u, (matchedLayerBoxes s).map (fun p => p.1))

/- ### Detector 3: `find_largest_3dface` -/

/-- Largest 3D face with `width > 0`, `height > 0`, `aspect < 3`
(`area > best_area` strict). With the positivity guard passed,
`max/min` equals `bboxAspect`. -/
def faceStep (best : Option (BBox × String × ℚ)) (e : Entity) :
    Option (BBox × String × ℚ) :=
  match e.geom, e.bb with
  | EGeom.face, some b =>
    if bestAreaOf best < bboxArea b ∧ 0 < bboxW b ∧ 0 < bboxH b then
      if bboxAspect b < 3 then some (b, e.handle, bboxArea b) else best
    else best
  | _, _ => best

def find_largest_3dface (s : List Entity) : Option (BBox × List String) :=
  (s.foldl faceStep none).map (fun p => (p.1, [p.2.1]))

/- ### Detector 4: `find_largest_rectangular_polyline` -/

/-- Largest polyline (open or closed; the `Closed` query is only
printed by the source) with `width > 0`, `height > 0`, `aspect < 10`. -/
def polyStep (best : Option (BBox × String × ℚ)) (e : Entity) :
    Option (BBox × String × ℚ) :=
  match e.geom, e.bb with
  | EGeom.polyline, some b =>
    if bestAreaOf best < bboxArea b ∧ 0 < bboxW b ∧ 0 < bboxH b then
      if bboxAspect b < 10 then some (b, e.handle, bboxArea b) else best
    else best
  | _, _ => best

def find_largest_rectangular_polyline (s : List Entity) : Option (BBox × List String) :=
  (s.foldl polyStep none).map (fun p => (p.1, [p.2.1]))

/- ### Detector 5: `find_border_from_longest_lines` -/

/-- One line entity as collected by `find_border_from_longest_lines`:
handle, start point and end point. The dict fields `length`, `center_x`,
`center_y` of the source are deterministic functions of the endpoints
and are modelled as the functions below. -/
structure LineData where
  handle : String
  sx : ℚ
  sy : ℚ
  ex : ℚ
  ey : ℚ
deriving DecidableEq

def dxAbs (l : LineData) : ℚ := |l.ex - l.sx|

def dyAbs (l : LineData) : ℚ := |l.ey - l.sy|

/-- Squared line length; the source sorts by `length = sqrt(len2)`,
which orders (and ties) exactly as `len2` does. -/
def len2 (l : LineData) : ℚ := (l.ex - l.sx) ^ 2 + (l.ey - l.sy) ^ 2

/-- `center_x = (start_x + end_x) / 2`, the midpoint abscissa. -/
def lineCX (l : LineData) : ℚ := (l.sx + l.ex) / 2

/-- `center_y = (start_y + end_y) / 2`, the midpoint ordinate. -/
def lineCY (l : LineData) : ℚ := (l.sy + l.ey) / 2

/-- `lines_connect`: some endpoint of one line is within `tolerance` of
some endpoint of the other. `sqrt d <= tol` is encoded as
`0 <= tol ∧ d <= tol^2`. -/
def lines_connect (l1 l2 : LineData) (tol : ℚ) : Bool :=
  decide (0 ≤ tol ∧
    ((l1.sx - l2.sx) ^ 2 + (l1.sy - l2.sy) ^ 2 ≤ tol ^ 2 ∨
     (l1.sx - l2.ex) ^ 2 + (l1.sy - l2.ey) ^ 2 ≤ tol ^ 2 ∨
     (l1.ex - l2.sx) ^ 2 + (l1.ey - l2.sy) ^ 2 ≤ tol ^ 2 ∨
     (l1.ex - l2.ex) ^ 2 + (l1.ey - l2.ey) ^ 2 ≤ tol ^ 2))

/-- `find_rectangle_from_lines`: first quadruple `(h1, h2, v1, v2)` in
nested left-to-right enumeration order whose four H-V pairs all
connect; pairs with equal handles are skipped. -/
def find_rectangle_from_lines (hl vl : List LineData) (tol : ℚ) :
    Option (LineData × LineData × LineData × LineData) :=
  hl.findSome? fun h1 =>
    hl.findSome? fun h2 =>
      if h1.handle == h2.handle then none
      else
        vl.findSome? fun v1 =>
          vl.findSome? fun v2 =>
            if v1.handle == v2.handle then none
            else
              if lines_connect h1 v1 tol && lines_connect h1 v2 tol &&
                  lines_connect h2 v1 tol && lines_connect h2 v2 tol then
                some (h1, h2, v1, v2)
              else none

/-- The descending tolerance ladder `[50.0, 20.0, 10.0, 5.0, 2.0, 1.0]`. -/
def toleranceLadder : List ℚ := [50, 20, 10, 5, 2, 1]

/-- The search loop: try each tolerance in order, stop at the first
success. -/
def ladderSearch (hl vl : List LineData) :
    List ℚ → Option (LineData × LineData × LineData × LineData)
  | [] => none
  | t :: ts =>
    match find_rectangle_from_lines hl vl t with
    | some r => some r
    | none => ladderSearch hl vl ts

/- ### Stable sorting (Python `list.sort` is stable; `reverse=True`
keeps ties in original order as well) -/

/-- Stable insertion: `le x y = true` means `x` may be placed before
`y`; on ties `le` must hold so the incoming (originally earlier)
element goes first. -/
def insertStable {α : Type} (le : α → α → Bool) (x : α) : List α → List α
  | [] => [x]
  | y :: ys => if le x y then x :: y :: ys else y :: insertStable le x ys

/-- Stable insertion sort; with `le a b = key b <= key a` this is
Python's stable sort with `key=key, reverse=True`, with
`le a b = key a <= key b` the stable ascending sort. -/
def sortStable {α : Type} (le : α → α → Bool) : List α → List α
  | [] => []
  | x :: xs => insertStable le x (sortStable le xs)

def lenGe (a b : LineData) : Bool := decide (len2 b ≤ len2 a)

def cyLe (a b : LineData) : Bool := decide (lineCY a ≤ lineCY b)

def cxLe (a b : LineData) : Bool := decide (lineCX a ≤ lineCX b)

/-- The line-collection pass: entities whose category is Line (and not
Polyline) with positive length. -/
def collectLines (s : List Entity) : List LineData :=
  s.filterMap (fun e =>
    match e.geom with
    | EGeom.line sx sy ex ey =>
      let l : LineData := ⟨e.handle, sx, sy, ex, ey⟩
      if 0 < len2 l then some l else none
    | _ => none)

/-- Horizontal classification `dx > dy * 2`. -/
def horizLines (s : List Entity) : List LineData :=
  (collectLines s).filter (fun l => decide (2 * dyAbs l < dxAbs l))

/-- Vertical classification `dy > dx * 2`. -/
def vertLines (s : List Entity) : List LineData :=
  (collectLines s).filter (fun l => decide (2 * dxAbs l < dyAbs l))

/-- Lines 583-620 of the source: re-split the chosen quadruple into
horizontal (`|dx| > |dy|`) and vertical (`|dy| > |dx|`) lines, with the
positional fallbacks `rectangle[:2]` / `rectangle[2:]` when a class
has fewer than two members, sort by the midpoint coordinate, and build
the bounds from the midpoints of the extreme lines. In the pipeline
`rect` always has four elements, so the final catch-all arm is
unreachable. -/
def boundsFromRect (rect : List LineData) : BBox × List String :=
  let hl0 := rect.filter (fun l => decide (dyAbs l < dxAbs l))
  let vl0 := rect.filter (fun l => decide (dxAbs l < dyAbs l))
  let hl := if hl0.length < 2 then rect.take 2 else hl0
  let vl := if vl0.length < 2 then rect.drop 2 else vl0
  let hsorted := sortStable cyLe hl
  let vsorted := sortStable cxLe vl
  match hsorted.head?, hsorted.getLast?, vsorted.head?, vsorted.getLast? with
  | some bot, some top, some lft, some rgt =>
    (⟨lineCX lft, lineCY bot, lineCX rgt, lineCY top⟩,
      [bot.handle, top.handle, lft.handle, rgt.handle])
  | _, _, _, _ => (⟨0, 0, 0, 0⟩, [])

/-- `find_border_from_longest_lines`: `none` iff fewer than two
horizontal or fewer than two vertical lines (the length test of the
source is on the unsorted lists); otherwise sort both classes by
length descending, keep the top 30 of each, run the tolerance ladder,
fall back to the two longest of each class when the ladder fails, and
compute midpoint bounds. -/
def find_border_from_longest_lines (s : List Entity) : Option (BBox × List String) :=
  if (horizLines s).length < 2 ∨ (vertLines s).length < 2 then none
  else
    match sortStable lenGe (horizLines s), sortStable lenGe (vertLines s) with
    | h0 :: h1 :: hr, v0 :: v1 :: vr =>
      let topH := (h0 :: h1 :: hr).take 30
      let topV := (v0 :: v1 :: vr).take 30
      let rect :=
        match ladderSearch topH topV toleranceLadder with
        | some (a, b, c, d) => [a, b, c, d]
        | none => [h0, h1, v0, v1]
      some (boundsFromRect rect)
    | _, _ => none

/- ### Arbitrator: `find_drawing_border` -/

def kindBlock : String := "border_block"

def kindLayer : String := "border_layer"

def kindFace : String := "3dface"

def kindPoly : String := "polyline"

def kindLines : String := "lines"

def emptyKind : String := ""

/-- A detector candidate as collected by `find_drawing_border`:
`(border_type, bounds, handles, area)`. -/
structure Cand where
  kind : String
  bounds : BBox
  handles : List String
  area : ℚ
deriving DecidableEq

def candOf (kind : String) (r : Option (BBox × List String)) : List Cand :=
  match r with
  | none => []
  | some (b, hs) => [⟨kind, b, hs, bboxArea b⟩]

/-- The candidate list in detector priority order
(block > layer > face > polyline). -/
def candList (s : List Entity) : List Cand :=
  candOf kindBlock (find_border_block_reference s) ++
    candOf kindLayer (find_border_by_layer s) ++
    candOf kindFace (find_largest_3dface s) ++
    candOf kindPoly (find_largest_rectangular_polyline s)

def areaGe (a b : Cand) : Bool := decide (b.area ≤ a.area)

/-- `find_drawing_border`: stable sort of the candidates by area
descending, first element wins; when the list is empty fall back to
the line-rectangle detector with kind `"lines"`. -/
def find_drawing_border (s : List Entity) : Option (BBox × List String × String) :=
  match sortStable areaGe (candList s) with
  | c :: _ => some (c.bounds, c.handles, c.kind)
  | [] =>
    (find_border_from_longest_lines s).map (fun bh => (bh.1, bh.2, kindLines))

/- ### Pruner: `entity_in_bounds` and `delete_entities_outside_bounds` -/

/-- `entity_in_bounds`: kept when the bounding box cannot be determined,
otherwise the four tolerance-expanded comparisons. -/
def entity_in_bounds (bb : Option BBox) (bounds : BBox) (tol : ℚ) : Bool :=
  match bb with
  | none => true
  | some eb =>
    decide (bounds.minX - tol ≤ eb.minX ∧ bounds.minY - tol ≤ eb.minY ∧
      eb.maxX ≤ bounds.maxX + tol ∧ eb.maxY ≤ bounds.maxY + tol)

/-- The per-entity deletion test of `delete_entities_outside_bounds`:
not a contributing handle and not inside the bounds (tolerance 1.0,
the default of `entity_in_bounds`). -/
def shouldDelete (bounds : BBox) (hs : List String) (e : Entity) : Bool :=
  !(decide (e.handle ∈ hs)) && !(entity_in_bounds e.bb bounds 1)

/-- The deletion set computed by the first loop of
`delete_entities_outside_bounds`, in snapshot order. -/
def entitiesToDelete (s : List Entity) (bounds : BBox) (hs : List String) : List Entity :=
  s.filter (shouldDelete bounds hs)

/- ### Small-step model of `delete_entities_outside_bounds` (claim C10):
the first loop classifies entity `scanIdx` of the document, the second
loop issues one delete per step. -/

structure PrunerState where
  doc : List Entity
  scanIdx : Nat
  toDelete : List Entity
  delIdx : Nat
deriving DecidableEq

def pruneInit (doc : List Entity) : PrunerState := ⟨doc, 0, [], 0⟩

/-- One step of the pruner: while entities remain to scan, classify the
next one (the document is not touched); afterwards, issue the delete
requests one by one (`delOk` models per-entity `Delete()` success;
a failed delete is skipped, as in the source). -/
def pruneStep (bounds : BBox) (hs : List String) (delOk : Entity → Bool)
    (st : PrunerState) : PrunerState :=
  match st.doc[st.scanIdx]? with
  | some e =>
    { st with
        scanIdx := st.scanIdx + 1,
        toDelete :=
          if shouldDelete bounds hs e then st.toDelete ++ [e] else st.toDelete }
  | none =>
    match st.toDelete[st.delIdx]? with
    | some e =>
      { st with
          delIdx := st.delIdx + 1,
          doc := if delOk e then st.doc.erase e else st.doc }
    | none => st

/- ### Outcome classification: the tail of `process_dwg_file` -/

inductive Status where
  | success
  | failed
  | review
deriving DecidableEq

/-- `result.status` after the save block and the review check:
save success/failure first, then the `delete_percentage > 50` override
(which the source applies regardless of the save outcome).
`delete_percentage > 50` is `deleted / before * 100 > 50`, i.e.
`50 * before < 100 * deleted` for `before > 0`. -/
def classifyStatus (saveOk : Bool) (before deleted : Nat) : Status :=
  let st := if saveOk then Status.success else Status.failed
  if 0 < before ∧ 50 * before < 100 * deleted then Status.review else st

/-- The fields of `ProcessingResult` the claims are about. -/
structure Outcome where
  status : Status
  borderFound : Bool
  borderType : String
  entitiesBefore : Nat
  entitiesDeleted : Nat
deriving DecidableEq

/-- `process_dwg_file`, restricted to the decision core: `openOk`
models whether `Documents.Open` succeeded within the retries (a failed
open returns early with status `failed`); `countOk` models whether the
`ModelSpace.Count` query succeeded (on failure `entities_before = 0`);
`saveOk` models `SaveAs`; `delOk` models per-entity `Delete()`
success. Deletion runs only when a border was found. -/
def process_dwg_file (openOk countOk saveOk : Bool) (delOk : Entity → Bool)
    (s : List Entity) : Outcome :=
  if openOk then
    let before := if countOk then s.length else 0
    match find_drawing_border s with
    | none =>
      ⟨classifyStatus saveOk before 0, false, emptyKind, before, 0⟩
    | some (b, hs, t) =>
      let deleted := ((entitiesToDelete s b hs).filter delOk).length
      ⟨classifyStatus saveOk before deleted, true, t, before, deleted⟩
  else ⟨Status.failed, false, emptyKind, 0, 0⟩

/- ### Specification-side selection function for the arbitration claim -/

/-- The earliest candidate of maximal area: on equal areas the earlier
list element (the earlier-priority detector) wins. Used to state what
the stable sort-by-area-descending head must be. -/
def firstMaxCand : List Cand → Option Cand
  | [] => none
  | x :: xs =>
    match firstMaxCand xs with
    | none => some x
    | some y => some (if x.area < y.area then y else x)

/- ### Concrete snapshots used by the witnesses and counterexamples -/

def c1Poly : Entity := ⟨"P", "0", EGeom.polyline, some ⟨0, 0, 200, 100⟩⟩

def c1Out1 : Entity := ⟨"O1", "0", EGeom.other, some ⟨1000, 1000, 1001, 1001⟩⟩

def c1Out2 : Entity := ⟨"O2", "0", EGeom.other, some ⟨2000, 2000, 2001, 2001⟩⟩

/-- C1 counterexample snapshot: a polyline border plus two far-away
entities, so 2 of 3 entities (> 50%) are deleted. -/
def c1Demo : List Entity := [c1Poly, c1Out1, c1Out2]

def c2Layer : Entity := ⟨"L", "BORDER", EGeom.other, some ⟨0, 0, 1000, 800⟩⟩

def c2Poly : Entity := ⟨"P", "0", EGeom.polyline, some ⟨0, 0, 1000, 800⟩⟩

/-- C2 witness snapshot (Scenario A): a layer candidate and a polyline
candidate with identical bounds and area. -/
def c2Demo : List Entity := [c2Layer, c2Poly]

def c3Ent : Entity := ⟨"X", "0", EGeom.other, some ⟨300, 0, 400, 50⟩⟩

def c4Ent : Entity := ⟨"B", "0", EGeom.other, some ⟨999, 999, 1000, 1000⟩⟩

def c5H1 : LineData := ⟨"h1", 0, 0, 100, 0⟩

def c5H2 : LineData := ⟨"h2", 0, 80, 100, 80⟩

def c5V1 : LineData := ⟨"v1", 0, 0, 0, 80⟩

def c5V2 : LineData := ⟨"v2", 100, 0, 100, 80⟩

/-- C6 counterexample entity: union box 500 x 100, aspect exactly 5. -/
def c6Ent : Entity := ⟨"L0", "BORDER", EGeom.other, some ⟨0, 0, 500, 100⟩⟩

def c6WEnt : Entity := ⟨"W", "FRAME", EGeom.other, some ⟨0, 0, 300, 200⟩⟩

def c7LA : Entity := ⟨"h1", "0", EGeom.line 0 0 100 0, none⟩

def c7LB : Entity := ⟨"h2", "0", EGeom.line 0 80 100 80, none⟩

def c7LC : Entity := ⟨"v1", "0", EGeom.line 0 0 0 80, none⟩

def c7LD : Entity := ⟨"v2", "0", EGeom.line 100 0 100 80, none⟩

/-- C7 witness snapshot: four lines forming a perfect 100 x 80
rectangle, found at the first ladder tolerance. -/
def c7Demo : List Entity := [c7LA, c7LB, c7LC, c7LD]

def c9LA : Entity := ⟨"a", "0", EGeom.line 0 0 100 0, none⟩

def c9LB : Entity := ⟨"b", "0", EGeom.line 0 1000 100 1000, none⟩

def c9LC : Entity := ⟨"c", "0", EGeom.line 5000 0 5000 100, none⟩

def c9LD : Entity := ⟨"d", "0", EGeom.line 5000 200 5000 300, none⟩

/-- C9 counterexample snapshot: no quadruple connects at any tolerance
(the vertical lines sit 4900 units away from the horizontal ones), so
the detector falls back to the two longest lines of each class; the
two vertical lines share the center abscissa 5000, giving width 0. -/
def c9Demo : List Entity := [c9LA, c9LB, c9LC, c9LD]

def c9Poly : Entity := ⟨"P", "0", EGeom.polyline, some ⟨0, 0, 200, 100⟩⟩

def c10Ent : Entity := ⟨"X", "0", EGeom.other, some ⟨10, 10, 11, 11⟩⟩

/- ### Generic list lemmas for the stable sort and the fold detectors -/

theorem mem_insertStable {α : Type} (le : α → α → Bool) (x a : α) (l : List α) :
    a ∈ insertStable le x l ↔ a = x ∨ a ∈ l := by
  induction l with
  | nil => simp [insertStable]
  | cons y ys ih =>
    simp only [insertStable]
    split
    · simp [List.mem_cons]
    · simp only [List.mem_cons, ih]
      tauto

theorem mem_sortStable {α : Type} (le : α → α → Bool) (a : α) (l : List α) :
    a ∈ sortStable le l ↔ a ∈ l := by
  induction l with
  | nil => simp [sortStable]
  | cons x xs ih => simp [sortStable, mem_insertStable, ih]

theorem length_insertStable {α : Type} (le : α → α → Bool) (x : α) (l : List α) :
    (insertStable le x l).length = l.length + 1 := by
  induction l with
  | nil => rfl
  | cons y ys ih =>
    simp only [insertStable]
    split
    · rfl
    · simp [ih]

theorem length_sortStable {α : Type} (le : α → α → Bool) (l : List α) :
    (sortStable le l).length = l.length := by
  induction l with
  | nil => rfl
  | cons x xs ih => simp [sortStable, length_insertStable, ih]

theorem foldl_inv {α σ : Type} (inv : σ → Prop) (f : σ → α → σ)
    (l : List α) (init : σ) (h0 : inv init)
    (hstep : ∀ st a, inv st → inv (f st a)) : inv (l.foldl f init) := by
  induction l generalizing init with
  | nil => exact h0
  | cons a l ih => exact ih _ (hstep _ _ h0)

/- ### Detector fold invariants -/

theorem blockStep_inv (best : Option (BBox × String × ℚ)) (e : Entity)
    (h : ∀ b hd a, best = some (b, hd, a) → 100 < bboxW b ∧ 100 < bboxH b) :
    ∀ b hd a, blockStep best e = some (b, hd, a) → 100 < bboxW b ∧ 100 < bboxH b := by
  intro b hd a hb
  unfold blockStep at hb
  split at hb
  · split_ifs at hb with h1 h2 h3
    · simp only [Option.some.injEq, Prod.mk.injEq] at hb
      obtain ⟨rfl, -, -⟩ := hb
      exact ⟨h2.2.1, h2.2.2⟩
    all_goals exact h _ _ _ hb
  all_goals exact h _ _ _ hb

theorem faceStep_inv (best : Option (BBox × String × ℚ)) (e : Entity)
    (h : ∀ b hd a, best = some (b, hd, a) → 0 < bboxW b ∧ 0 < bboxH b) :
    ∀ b hd a, faceStep best e = some (b, hd, a) → 0 < bboxW b ∧ 0 < bboxH b := by
  intro b hd a hb
  unfold faceStep at hb
  split at hb
  · split_ifs at hb with h1 h2
    · simp only [Option.some.injEq, Prod.mk.injEq] at hb
      obtain ⟨rfl, -, -⟩ := hb
      exact ⟨h1.2.1, h1.2.2⟩
    all_goals exact h _ _ _ hb
  all_goals exact h _ _ _ hb

theorem polyStep_inv (best : Option (BBox × String × ℚ)) (e : Entity)
    (h : ∀ b hd a, best = some (b, hd, a) → 0 < bboxW b ∧ 0 < bboxH b) :
    ∀ b hd a, polyStep best e = some (b, hd, a) → 0 < bboxW b ∧ 0 < bboxH b := by
  intro b hd a hb
  unfold polyStep at hb
  split at hb
  · split_ifs at hb with h1 h2
    · simp only [Option.some.injEq, Prod.mk.injEq] at hb
      obtain ⟨rfl, -, -⟩ := hb
      exact ⟨h1.2.1, h1.2.2⟩
    all_goals exact h _ _ _ hb
  all_goals exact h _ _ _ hb

theorem block_fold_bounds (s : List Entity) (b : BBox) (hd : String) (a : ℚ)
    (h : s.foldl blockStep none = some (b, hd, a)) : 100 < bboxW b ∧ 100 < bboxH b :=
  foldl_inv (fun best => ∀ b hd a, best = some (b, hd, a) → 100 < bboxW b ∧ 100 < bboxH b)
    blockStep s none (by simp) (fun st e hst => blockStep_inv st e hst) b hd a h

theorem face_fold_bounds (s : List Entity) (b : BBox) (hd : String) (a : ℚ)
    (h : s.foldl faceStep none = some (b, hd, a)) : 0 < bboxW b ∧ 0 < bboxH b :=
  foldl_inv (fun best => ∀ b hd a, best = some (b, hd, a) → 0 < bboxW b ∧ 0 < bboxH b)
    faceStep s none (by simp) (fun st e hst => faceStep_inv st e hst) b hd a h

theorem poly_fold_bounds (s : List Entity) (b : BBox) (hd : String) (a : ℚ)
    (h : s.foldl polyStep none = some (b, hd, a)) : 0 < bboxW b ∧ 0 < bboxH b :=
  foldl_inv (fun best => ∀ b hd a, best = some (b, hd, a) → 0 < bboxW b ∧ 0 < bboxH b)
    polyStep s none (by simp) (fun st e hst => polyStep_inv st e hst) b hd a h

/- ### Head of the stable area sort is the first maximal-area candidate -/

theorem head?_insertStable_areaGe (x : Cand) (l : List Cand) :
    (insertStable areaGe x l).head? =
      some (match l.head? with
            | none => x
            | some y => if x.area < y.area then y else x) := by
  cases l with
  | nil => rfl
  | cons y ys =>
    by_cases h : y.area ≤ x.area
    · simp [insertStable, areaGe, h, not_lt.mpr h]
    · have h' : x.area < y.area := lt_of_not_le h
      simp [insertStable, areaGe, h, h']

theorem head?_sortStable_areaGe (l : List Cand) :
    (sortStable areaGe l).head? = firstMaxCand l := by
  induction l with
  | nil => rfl
  | cons x xs ih =>
    simp only [sortStable, firstMaxCand]
    rw [head?_insertStable_areaGe, ih]
    cases firstMaxCand xs <;> rfl

theorem firstMaxCand_eq_none (l : List Cand) :
    firstMaxCand l = none ↔ l = [] := by
  cases l with
  | nil => simp [firstMaxCand]
  | cons x xs =>
    simp only [firstMaxCand]
    cases firstMaxCand xs <;> simp

theorem firstMaxCand_spec (l : List Cand) (c : Cand)
    (h : firstMaxCand l = some c) :
    c ∈ l ∧ (∀ x ∈ l, x.area ≤ c.area) ∧
      ∃ p q, l = p ++ c :: q ∧ ∀ x ∈ p, x.area < c.area := by
  induction l generalizing c with
  | nil => simp [firstMaxCand] at h
  | cons x xs ih =>
    simp only [firstMaxCand] at h
    cases hm : firstMaxCand xs with
    | none =>
      rw [hm] at h
      simp only [Option.some.injEq] at h
      obtain rfl : x = c := h
      have hxs : xs = [] := (firstMaxCand_eq_none xs).mp hm
      subst hxs
      exact ⟨by simp, by simp, [], [], rfl, by simp⟩
    | some y =>
      rw [hm] at h
      simp only [Option.some.injEq] at h
      by_cases hlt : x.area < y.area
      · rw [if_pos hlt] at h
        obtain rfl : y = c := h
        obtain ⟨hmem, hbound, p, q, heq, hstrict⟩ := ih y hm
        refine ⟨by simp [hmem], ?_, x :: p, q, by simp [heq], ?_⟩
        · intro z hz
          rcases List.mem_cons.mp hz with rfl | hz
          · exact le_of_lt hlt
          · exact hbound z hz
        · intro z hz
          rcases List.mem_cons.mp hz with rfl | hz
          · exact hlt
          · exact hstrict z hz
      · rw [if_neg hlt] at h
        obtain rfl : x = c := h
        obtain ⟨hmem, hbound, -⟩ := ih y hm
        refine ⟨by simp, ?_, [], xs, rfl, by simp⟩
        intro z hz
        rcases List.mem_cons.mp hz with rfl | hz
        · exact le_refl _
        · exact le_trans (hbound z hz) (not_lt.mp hlt)

/- ### Folded min/max facts for the layer union box -/

theorem foldl_min_le_init (l : List ℚ) (a : ℚ) : l.foldl min a ≤ a := by
  induction l generalizing a with
  | nil => exact le_refl a
  | cons x xs ih => exact le_trans (ih (min a x)) (min_le_left a x)

theorem foldl_min_le_mem (l : List ℚ) (a x : ℚ) : x ∈ l → l.foldl min a ≤ x := by
  induction l generalizing a with
  | nil => intro hx; simp at hx
  | cons y ys ih =>
    intro hx
    rcases List.mem_cons.mp hx with rfl | hx
    · exact le_trans (foldl_min_le_init ys (min a x)) (min_le_right a x)
    · exact ih (min a y) hx

theorem foldl_min_attained (l : List ℚ) (a : ℚ) :
    l.foldl min a = a ∨ l.foldl min a ∈ l := by
  induction l generalizing a with
  | nil => exact Or.inl rfl
  | cons x xs ih =>
    rcases ih (min a x) with h | h
    · rcases min_choice a x with hm | hm
      · exact Or.inl (by rw [List.foldl_cons, h, hm])
      · exact Or.inr (by rw [List.foldl_cons, h, hm]; simp)
    · exact Or.inr (List.mem_cons_of_mem x h)

theorem foldl_max_ge_init (l : List ℚ) (a : ℚ) : a ≤ l.foldl max a := by
  induction l generalizing a with
  | nil => exact le_refl a
  | cons x xs ih => exact le_trans (le_max_left a x) (ih (max a x))

theorem foldl_max_ge_mem (l : List ℚ) (a x : ℚ) : x ∈ l → x ≤ l.foldl max a := by
  induction l generalizing a with
  | nil => intro hx; simp at hx
  | cons y ys ih =>
    intro hx
    rcases List.mem_cons.mp hx with rfl | hx
    · exact le_trans (le_max_right a x) (foldl_max_ge_init ys (max a x))
    · exact ih (max a y) hx

theorem foldl_max_attained (l : List ℚ) (a : ℚ) :
    l.foldl max a = a ∨ l.foldl max a ∈ l := by
  induction l generalizing a with
  | nil => exact Or.inl rfl
  | cons x xs ih =>
    rcases ih (max a x) with h | h
    · rcases max_choice a x with hm | hm
      · exact Or.inl (by rw [List.foldl_cons, h, hm])
      · exact Or.inr (by rw [List.foldl_cons, h, hm]; simp)
    · exact Or.inr (List.mem_cons_of_mem x h)

theorem joinFold_minX (rest : List (String × BBox)) (b : BBox) :
    (rest.foldl (fun acc q => joinBox acc q.2) b).minX =
      (rest.map (fun q => q.2.minX)).foldl min b.minX := by
  induction rest generalizing b with
  | nil => rfl
  | cons p ps ih =>
    simp only [List.foldl_cons, List.map_cons]
    rw [ih (joinBox b p.2)]
    simp [joinBox]

theorem joinFold_minY (rest : List (String × BBox)) (b : BBox) :
    (rest.foldl (fun acc q => joinBox acc q.2) b).minY =
      (rest.map (fun q => q.2.minY)).foldl min b.minY := by
  induction rest generalizing b with
  | nil => rfl
  | cons p ps ih =>
    simp only [List.foldl_cons, List.map_cons]
    rw [ih (joinBox b p.2)]
    simp [joinBox]

theorem joinFold_maxX (rest : List (String × BBox)) (b : BBox) :
    (rest.foldl (fun acc q => joinBox acc q.2) b).maxX =
      (rest.map (fun q => q.2.maxX)).foldl max b.maxX := by
  induction rest generalizing b with
  | nil => rfl
  | cons p ps ih =>
    simp only [List.foldl_cons, List.map_cons]
    rw [ih (joinBox b p.2)]
    simp [joinBox]

theorem joinFold_maxY (rest : List (String × BBox)) (b : BBox) :
    (rest.foldl (fun acc q => joinBox acc q.2) b).maxY =
      (rest.map (fun q => q.2.maxY)).foldl max b.maxY := by
  induction rest generalizing b with
  | nil => rfl
  | cons p ps ih =>
    simp only [List.foldl_cons, List.map_cons]
    rw [ih (joinBox b p.2)]
    simp [joinBox]

/- ### Ladder helpers -/

theorem ladderSearch_cons_none (hl vl : List LineData) (t : ℚ) (ts : List ℚ)
    (h : find_rectangle_from_lines hl vl t = none) :
    ladderSearch hl vl (t :: ts) = ladderSearch hl vl ts := by
  simp [ladderSearch, h]

theorem ladderSearch_cons_self (hl vl : List LineData) (t : ℚ) (ts : List ℚ)
    (h : find_rectangle_from_lines hl vl t ≠ none) :
    ladderSearch hl vl (t :: ts) = find_rectangle_from_lines hl vl t := by
  simp only [ladderSearch]
  cases hf : find_rectangle_from_lines hl vl t with
  | none => exact absurd hf h
  | some r => rfl

/-- C5: the line-rectangle detector tries the tolerance ladder
`[50, 20, 10, 5, 2, 1]` in descending order and returns the rectangle
found at the first (largest) tolerance for which a valid quadruple
exists, stopping immediately; it never returns a result computed at a
smaller tolerance when a larger one already succeeds. -/
theorem c5_tolerance_ladder (hl vl : List LineData) (t : ℚ)
    (hmem : t ∈ toleranceLadder)
    (hlarger : ∀ u ∈ toleranceLadder, t < u → find_rectangle_from_lines hl vl u = none)
    (hsucc : find_rectangle_from_lines hl vl t ≠ none) :
    ladderSearch hl vl toleranceLadder = find_rectangle_from_lines hl vl t := by
  have hL : toleranceLadder = [50, 20, 10, 5, 2, 1] := rfl
  simp only [toleranceLadder, List.mem_cons, List.not_mem_nil, or_false] at hmem
  rcases hmem with rfl | rfl | rfl | rfl | rfl | rfl
  · rw [hL]
    exact ladderSearch_cons_self _ _ _ _ hsucc
  · rw [hL, ladderSearch_cons_none _ _ _ _ (hlarger 50 (by decide) (by norm_num))]
    exact ladderSearch_cons_self _ _ _ _ hsucc
  · rw [hL, ladderSearch_cons_none _ _ _ _ (hlarger 50 (by decide) (by norm_num)),
      ladderSearch_cons_none _ _ _ _ (hlarger 20 (by decide) (by norm_num))]
    exact ladderSearch_cons_self _ _ _ _ hsucc
  · rw [hL, ladderSearch_cons_none _ _ _ _ (hlarger 50 (by decide) (by norm_num)),
      ladderSearch_cons_none _ _ _ _ (hlarger 20 (by decide) (by norm_num)),
      ladderSearch_cons_none _ _ _ _ (hlarger 10 (by decide) (by norm_num))]
    exact ladderSearch_cons_self _ _ _ _ hsucc
  · rw [hL, ladderSearch_cons_none _ _ _ _ (hlarger 50 (by decide) (by norm_num)),
      ladderSearch_cons_none _ _ _ _ (hlarger 20 (by decide) (by norm_num)),
      ladderSearch_cons_none _ _ _ _ (hlarger 10 (by decide) (by norm_num)),
      ladderSearch_cons_none _ _ _ _ (hlarger 5 (by decide) (by norm_num))]
    exact ladderSearch_cons_self _ _ _ _ hsucc
  · rw [hL, ladderSearch_cons_none _ _ _ _ (hlarger 50 (by decide) (by norm_num)),
      ladderSearch_cons_none _ _ _ _ (hlarger 20 (by decide) (by norm_num)),
      ladderSearch_cons_none _ _ _ _ (hlarger 10 (by decide) (by norm_num)),
      ladderSearch_cons_none _ _ _ _ (hlarger 5 (by decide) (by norm_num)),
      ladderSearch_cons_none _ _ _ _ (hlarger 2 (by decide) (by norm_num))]
    exact ladderSearch_cons_self _ _ _ _ hsucc

unseal Rat.add Rat.sub Rat.mul Rat.inv in
/-- C5 witness: on a concrete perfect rectangle the quadruple already
connects at tolerance 50 and the ladder returns that result. -/
theorem c5_witness :
    ladderSearch [c5H1, c5H2] [c5V1, c5V2] toleranceLadder =
      find_rectangle_from_lines [c5H1, c5H2] [c5V1, c5V2] 50 :=
  c5_tolerance_ladder [c5H1, c5H2] [c5V1, c5V2] 50 (by decide)
    (fun u hu hlt => by
      simp only [toleranceLadder, List.mem_cons, List.not_mem_nil, or_false] at hu
      rcases hu with rfl | rfl | rfl | rfl | rfl | rfl <;> norm_num at hlt)
    (by decide)

unseal Rat.add Rat.sub Rat.mul Rat.inv in
/-- C6 counterexample: an entity on layer `BORDER` with bounding box
`(0, 0, 500, 100)` has union width 500, height 100, and aspect ratio
exactly 5. The claim says the candidate is rejected when the aspect
ratio is at least 5, but `find_border_by_layer` rejects only on
`aspect > 5` (strict) and accepts this candidate. -/
theorem c6_counterexample :
    find_border_by_layer [c6Ent] = some (⟨0, 0, 500, 100⟩, ["L0"]) ∧
      bboxAspect ⟨0, 0, 500, 100⟩ = 5 := by
  constructor
  · decide
  · decide

/-- C6 (amended): the layer detector produces at most one candidate
(its result is an `Option`); the candidate is rejected exactly when no
entity matches, or the union width is below 100, or the union height is
below 100, or the aspect ratio is STRICTLY greater than 5 (the claim
said at least 5; aspect exactly 5 is accepted); when produced, its
bounds are the exact component-wise min/max over the bounding boxes of
all matching entities and its handle set is the full matching set. -/
theorem c6_amended (s : List Entity) :
    (layerUnion s = none → find_border_by_layer s = none) ∧
    (∀ u, layerUnion s = some u →
      ((bboxW u < 100 ∨ bboxH u < 100 ∨ 5 < bboxAspect u) →
        find_border_by_layer s = none) ∧
      (¬(bboxW u < 100 ∨ bboxH u < 100 ∨ 5 < bboxAspect u) →
        find_border_by_layer s = some (u, (matchedLayerBoxes s).map (fun p => p.1))) ∧
      ((∀ p ∈ matchedLayerBoxes s,
          u.minX ≤ p.2.minX ∧ u.minY ≤ p.2.minY ∧
            p.2.maxX ≤ u.maxX ∧ p.2.maxY ≤ u.maxY) ∧
        (∃ p ∈ matchedLayerBoxes s, u.minX = p.2.minX) ∧
        (∃ p ∈ matchedLayerBoxes s, u.minY = p.2.minY) ∧
        (∃ p ∈ matchedLayerBoxes s, u.maxX = p.2.maxX) ∧
        (∃ p ∈ matchedLayerBoxes s, u.maxY = p.2.maxY))) := by
  constructor
  · intro h
    unfold find_border_by_layer
    rw [h]
  · intro u hu
    have hfb : find_border_by_layer s =
        if bboxW u < 100 ∨ bboxH u < 100 then none
        else if 5 < bboxAspect u then none
        else some (u, (matchedLayerBoxes s).map (fun p => p.1)) := by
      unfold find_border_by_layer
      rw [hu]
    refine ⟨?_, ?_, ?_⟩
    · intro hrej
      rw [hfb]
      rcases hrej with h | h | h
      · rw [if_pos (Or.inl h)]
      · rw [if_pos (Or.inr h)]
      · by_cases hwh : bboxW u < 100 ∨ bboxH u < 100
        · rw [if_pos hwh]
        · rw [if_neg hwh, if_pos h]
    · intro hacc
      push_neg at hacc
      obtain ⟨hw, hh, ha⟩ := hacc
      rw [hfb, if_neg (by push_neg; exact ⟨hw, hh⟩), if_neg (not_lt.mpr ha)]
    · unfold layerUnion at hu
      cases hm : matchedLayerBoxes s with
      | nil => rw [hm] at hu; simp at hu
      | cons p rest =>
        rw [hm] at hu
        simp only [Option.some.injEq] at hu
        subst hu
        constructor
        · intro q hq
          rcases List.mem_cons.mp hq with rfl | hq
          · refine ⟨?_, ?_, ?_, ?_⟩
            · rw [joinFold_minX]; exact foldl_min_le_init _ _
            · rw [joinFold_minY]; exact foldl_min_le_init _ _
            · rw [joinFold_maxX]; exact foldl_max_ge_init _ _
            · rw [joinFold_maxY]; exact foldl_max_ge_init _ _
          · refine ⟨?_, ?_, ?_, ?_⟩
            · rw [joinFold_minX]
              exact foldl_min_le_mem _ _ _ (List.mem_map_of_mem _ hq)
            · rw [joinFold_minY]
              exact foldl_min_le_mem _ _ _ (List.mem_map_of_mem _ hq)
            · rw [joinFold_maxX]
              exact foldl_max_ge_mem _ _ _ (List.mem_map_of_mem _ hq)
            · rw [joinFold_maxY]
              exact foldl_max_ge_mem _ _ _ (List.mem_map_of_mem _ hq)
        · refine ⟨?_, ?_, ?_, ?_⟩
          · rw [joinFold_minX]
            rcases foldl_min_attained (rest.map (fun q => q.2.minX)) p.2.minX with h | h
            · exact ⟨p, List.mem_cons_self _ _, h⟩
            · obtain ⟨q, hq, hqe⟩ := List.mem_map.mp h
              exact ⟨q, List.mem_cons_of_mem _ hq, hqe.symm⟩
          · rw [joinFold_minY]
            rcases foldl_min_attained (rest.map (fun q => q.2.minY)) p.2.minY with h | h
            · exact ⟨p, List.mem_cons_self _ _, h⟩
            · obtain ⟨q, hq, hqe⟩ := List.mem_map.mp h
              exact ⟨q, List.mem_cons_of_mem _ hq, hqe.symm⟩
          · rw [joinFold_maxX]
            rcases foldl_max_attained (rest.map (fun q => q.2.maxX)) p.2.maxX with h | h
            · exact ⟨p, List.mem_cons_self _ _, h⟩
            · obtain ⟨q, hq, hqe⟩ := List.mem_map.mp h
              exact ⟨q, List.mem_cons_of_mem _ hq, hqe.symm⟩
          · rw [joinFold_maxY]
            rcases foldl_max_attained (rest.map (fun q => q.2.maxY)) p.2.maxY with h | h
            · exact ⟨p, List.mem_cons_self _ _, h⟩
            · obtain ⟨q, hq, hqe⟩ := List.mem_map.mp h
              exact ⟨q, List.mem_cons_of_mem _ hq, hqe.symm⟩

unseal Rat.add Rat.sub Rat.mul Rat.inv in
/-- C6 witness: a concrete matching entity with union box 300 x 200
(aspect 1.5) yields the candidate with exactly that box and handle. -/
theorem c6_witness :
    find_border_by_layer [c6WEnt] = some (⟨0, 0, 300, 200⟩, ["W"]) :=
  ((c6_amended [c6WEnt]).2 ⟨0, 0, 300, 200⟩ (by decide)).2.1 (by decide)

/-- C3: an entity outside the contributing-handle set is kept iff its
bounding box lies inside the bounds expanded by the tolerance 1.0 on
every side (it is deleted iff its box violates some side), and an
entity whose bounding box cannot be determined is conservatively
kept. -/
theorem c3_containment (s : List Entity) (bounds : BBox) (hs : List String)
    (e : Entity) (hmem : e ∈ s) (hnot : e.handle ∉ hs) :
    (e ∈ entitiesToDelete s bounds hs ↔
      ∃ eb, e.bb = some eb ∧
        ¬(bounds.minX - 1 ≤ eb.minX ∧ bounds.minY - 1 ≤ eb.minY ∧
          eb.maxX ≤ bounds.maxX + 1 ∧ eb.maxY ≤ bounds.maxY + 1)) ∧
    (e.bb = none → e ∉ entitiesToDelete s bounds hs) := by
  have hiff : e ∈ entitiesToDelete s bounds hs ↔
      ∃ eb, e.bb = some eb ∧
        ¬(bounds.minX - 1 ≤ eb.minX ∧ bounds.minY - 1 ≤ eb.minY ∧
          eb.maxX ≤ bounds.maxX + 1 ∧ eb.maxY ≤ bounds.maxY + 1) := by
    rw [entitiesToDelete, List.mem_filter]
    constructor
    · rintro ⟨-, hsd⟩
      simp only [shouldDelete, Bool.and_eq_true, Bool.not_eq_true'] at hsd
      obtain ⟨-, hin⟩ := hsd
      cases hbb : e.bb with
      | none =>
        rw [hbb] at hin
        simp [entity_in_bounds] at hin
      | some eb =>
        refine ⟨eb, rfl, ?_⟩
        rw [hbb] at hin
        simpa [entity_in_bounds] using hin
    · rintro ⟨eb, hbb, hviol⟩
      refine ⟨hmem, ?_⟩
      simp only [shouldDelete, Bool.and_eq_true, Bool.not_eq_true']
      refine ⟨decide_eq_false hnot, ?_⟩
      rw [hbb]
      simpa [entity_in_bounds] using hviol
  refine ⟨hiff, fun hn hd => ?_⟩
  obtain ⟨eb, heq, -⟩ := hiff.mp hd
  rw [hn] at heq
  exact Option.noConfusion heq

unseal Rat.add Rat.sub Rat.mul Rat.inv in
/-- C3 witness: a concrete entity whose box exceeds the right side of
the expanded bounds is in the deletion set, matching the criterion. -/
theorem c3_witness :
    (c3Ent ∈ entitiesToDelete [c3Ent] ⟨0, 0, 200, 100⟩ [] ↔
      ∃ eb, c3Ent.bb = some eb ∧
        ¬((0 : ℚ) - 1 ≤ eb.minX ∧ (0 : ℚ) - 1 ≤ eb.minY ∧
          eb.maxX ≤ (200 : ℚ) + 1 ∧ eb.maxY ≤ (100 : ℚ) + 1)) ∧
    (c3Ent.bb = none → c3Ent ∉ entitiesToDelete [c3Ent] ⟨0, 0, 200, 100⟩ []) :=
  c3_containment [c3Ent] ⟨0, 0, 200, 100⟩ [] c3Ent (by decide) (by decide)

/-- C4: an entity whose handle is in the contributing-handle set is
never part of the deletion set, whatever its bounding box is. -/
theorem c4_border_preservation (s : List Entity) (bounds : BBox)
    (hs : List String) (e : Entity) (h : e.handle ∈ hs) :
    e ∉ entitiesToDelete s bounds hs := by
  intro hmem
  rw [entitiesToDelete, List.mem_filter] at hmem
  have h2 := hmem.2
  simp only [shouldDelete, Bool.and_eq_true, Bool.not_eq_true',
    decide_eq_false_iff_not] at h2
  exact h2.1 h

unseal Rat.add Rat.sub Rat.mul Rat.inv in
/-- C4 witness: a contributing entity lying far outside the bounds is
still not in the deletion set. -/
theorem c4_witness :
    c4Ent ∉ entitiesToDelete [c4Ent] ⟨0, 0, 10, 10⟩ ["B"] :=
  c4_border_preservation [c4Ent] ⟨0, 0, 10, 10⟩ ["B"] c4Ent (by decide)

/- ### Status classification helpers (tail of `process_dwg_file`) -/

theorem classifyStatus_eq_review (saveOk : Bool) (before deleted : Nat) :
    classifyStatus saveOk before deleted = Status.review ↔
      0 < before ∧ 50 * before < 100 * deleted := by
  have hcs : classifyStatus saveOk before deleted =
      if 0 < before ∧ 50 * before < 100 * deleted then Status.review
      else if saveOk then Status.success else Status.failed := rfl
  rw [hcs]
  split_ifs with h1 h2
  · simp [h1]
  · simp [h1]
  · simp [h1]

theorem classifyStatus_eq_success (saveOk : Bool) (before deleted : Nat) :
    classifyStatus saveOk before deleted = Status.success ↔
      saveOk = true ∧ ¬(0 < before ∧ 50 * before < 100 * deleted) := by
  have hcs : classifyStatus saveOk before deleted =
      if 0 < before ∧ 50 * before < 100 * deleted then Status.review
      else if saveOk then Status.success else Status.failed := rfl
  rw [hcs]
  split_ifs with h1 h2
  · simp [h1]
  · simp [h1, h2]
  · simp [h1, h2]

theorem classifyStatus_eq_failed (saveOk : Bool) (before deleted : Nat) :
    classifyStatus saveOk before deleted = Status.failed ↔
      saveOk = false ∧ ¬(0 < before ∧ 50 * before < 100 * deleted) := by
  have hcs : classifyStatus saveOk before deleted =
      if 0 < before ∧ 50 * before < 100 * deleted then Status.review
      else if saveOk then Status.success else Status.failed := rfl
  rw [hcs]
  split_ifs with h1 h2
  · simp [h1]
  · simp [h1, h2]
  · simp [h1, h2]

/-- The review condition of `process_dwg_file` stated on the recorded
outcome fields: `entities_before > 0` and
`entities_deleted / entities_before * 100 > 50`
(in exact arithmetic, `50 * before < 100 * deleted`). -/
def reviewCond (o : Outcome) : Prop :=
  0 < o.entitiesBefore ∧ 50 * o.entitiesBefore < 100 * o.entitiesDeleted

unseal Rat.add Rat.sub Rat.mul Rat.inv in
/-- C1 counterexample: the snapshot has a polyline border and 2 of 3
entities outside it (deletion ratio 2/3 > 0.5), and the save FAILS
(`saveOk = false`). The claim says a failed save always wins, so the
status should be `failed`; the code's review check runs after the save
block and overwrites the status, yielding `review`. -/
theorem c1_counterexample :
    process_dwg_file true true false (fun _ => true) c1Demo =
      ⟨Status.review, true, kindPoly, 3, 2⟩ := by decide

/-- C1 (amended): the final status is `review` iff the open succeeded,
a border was found, `entitiesBefore > 0` and the deletion ratio exceeds
50 percent — REGARDLESS of the save outcome: the review flag overrides
both a `success` and a `failed`-save status (only a failed open always
wins, because processing returns early). Absent the review condition,
the status is `success` iff open and save succeeded, and `failed` iff
the open failed or the save failed. -/
theorem c1_amended (openOk countOk saveOk : Bool) (delOk : Entity → Bool)
    (s : List Entity) :
    ((process_dwg_file openOk countOk saveOk delOk s).status = Status.review ↔
      openOk = true ∧
        (process_dwg_file openOk countOk saveOk delOk s).borderFound = true ∧
        reviewCond (process_dwg_file openOk countOk saveOk delOk s)) ∧
    ((process_dwg_file openOk countOk saveOk delOk s).status = Status.success ↔
      openOk = true ∧ saveOk = true ∧
        ¬reviewCond (process_dwg_file openOk countOk saveOk delOk s)) ∧
    ((process_dwg_file openOk countOk saveOk delOk s).status = Status.failed ↔
      openOk = false ∨ (saveOk = false ∧
        ¬reviewCond (process_dwg_file openOk countOk saveOk delOk s))) := by
  cases openOk with
  | false =>
    refine ⟨?_, ?_, ?_⟩ <;> simp [process_dwg_file, reviewCond]
  | true =>
    cases hb : find_drawing_border s with
    | none =>
      refine ⟨?_, ?_, ?_⟩ <;>
        simp [process_dwg_file, hb, reviewCond,
          classifyStatus_eq_review, classifyStatus_eq_success, classifyStatus_eq_failed]
    | some r =>
      obtain ⟨b, hs2, t⟩ := r
      refine ⟨?_, ?_, ?_⟩ <;>
        simp [process_dwg_file, hb, reviewCond,
          classifyStatus_eq_review, classifyStatus_eq_success, classifyStatus_eq_failed]

/-- C2: whenever at least one of the block, layer, face, or polyline
detectors produces a candidate, the arbitrator (stable sort by area
descending, first element wins) selects the earliest candidate of
maximal area in detector-priority order block > layer > face >
polyline; in particular a layer candidate and a polyline candidate of
equal area resolve to the layer candidate (border type
`border_layer`). -/
theorem c2_arbitration (s : List Entity) :
    (∀ c, firstMaxCand (candList s) = some c →
      find_drawing_border s = some (c.bounds, c.handles, c.kind) ∧
      c ∈ candList s ∧ (∀ x ∈ candList s, x.area ≤ c.area) ∧
      ∃ p q, candList s = p ++ c :: q ∧ ∀ x ∈ p, x.area < c.area) ∧
    (∀ b1 h1 b2 h2,
      find_border_block_reference s = none →
      find_largest_3dface s = none →
      find_border_by_layer s = some (b1, h1) →
      find_largest_rectangular_polyline s = some (b2, h2) →
      bboxArea b1 = bboxArea b2 →
      find_drawing_border s = some (b1, h1, kindLayer)) := by
  constructor
  · intro c hc
    have hhead : (sortStable areaGe (candList s)).head? = some c := by
      rw [head?_sortStable_areaGe]; exact hc
    obtain ⟨hmem, hbound, p, q, heq, hstrict⟩ := firstMaxCand_spec _ _ hc
    refine ⟨?_, hmem, hbound, p, q, heq, hstrict⟩
    unfold find_drawing_border
    cases hsort : sortStable areaGe (candList s) with
    | nil => rw [hsort] at hhead; simp at hhead
    | cons a tl =>
      rw [hsort] at hhead
      simp only [List.head?_cons, Option.some.injEq] at hhead
      subst hhead
      rfl
  · intro b1 h1 b2 h2 hblock hface hlayer hpoly harea
    have hcl : candList s =
        [⟨kindLayer, b1, h1, bboxArea b1⟩, ⟨kindPoly, b2, h2, bboxArea b2⟩] := by
      simp [candList, candOf, hblock, hface, hlayer, hpoly]
    have hle : areaGe ⟨kindLayer, b1, h1, bboxArea b1⟩
        ⟨kindPoly, b2, h2, bboxArea b2⟩ = true := by
      simp [areaGe, harea]
    unfold find_drawing_border
    rw [hcl]
    simp [sortStable, insertStable, hle]

unseal Rat.add Rat.sub Rat.mul Rat.inv in
/-- C2 witness (Scenario A): concrete layer and polyline candidates
with identical bounds `(0, 0, 1000, 800)`; the layer candidate wins. -/
theorem c2_witness :
    find_drawing_border c2Demo = some (⟨0, 0, 1000, 800⟩, ["L"], kindLayer) :=
  (c2_arbitration c2Demo).2 ⟨0, 0, 1000, 800⟩ ["L"] ⟨0, 0, 1000, 800⟩ ["P"]
    (by decide) (by decide) (by decide) (by decide) (by decide)

theorem exists_two {α : Type} (l : List α) (h : 2 ≤ l.length) :
    ∃ a b t, l = a :: b :: t := by
  cases l with
  | nil => simp at h
  | cons a l2 =>
    cases l2 with
    | nil => simp at h
    | cons b t => exact ⟨a, b, t, rfl⟩

/-- C8: the line-rectangle fallback yields nothing exactly when there
are fewer than 2 horizontal or fewer than 2 vertical lines; and when
every detector fails, the pipeline (with a successful open and save)
reports no border, deletes nothing, and ends with status `success`. -/
theorem c8_no_border (s : List Entity) (countOk : Bool) (delOk : Entity → Bool) :
    (find_border_from_longest_lines s = none ↔
      (horizLines s).length < 2 ∨ (vertLines s).length < 2) ∧
    (candList s = [] → find_border_from_longest_lines s = none →
      process_dwg_file true countOk true delOk s =
        ⟨Status.success, false, emptyKind, (if countOk then s.length else 0), 0⟩) := by
  constructor
  · by_cases hc : (horizLines s).length < 2 ∨ (vertLines s).length < 2
    · refine ⟨fun _ => hc, fun _ => ?_⟩
      unfold find_border_from_longest_lines
      rw [if_pos hc]
    · refine ⟨fun hnone => ?_, fun hd => absurd hd hc⟩
      exfalso
      push_neg at hc
      obtain ⟨hH, hV⟩ := hc
      have hH2 : 2 ≤ (sortStable lenGe (horizLines s)).length := by
        rw [length_sortStable]; exact hH
      have hV2 : 2 ≤ (sortStable lenGe (vertLines s)).length := by
        rw [length_sortStable]; exact hV
      obtain ⟨a, b, t1, habt⟩ := exists_two _ hH2
      obtain ⟨c, d, t2, hcdt⟩ := exists_two _ hV2
      unfold find_border_from_longest_lines at hnone
      rw [if_neg (by push_neg; exact ⟨hH, hV⟩), habt, hcdt] at hnone
      simp at hnone
  · intro hcand hlines
    have hfb : find_drawing_border s = none := by
      unfold find_drawing_border
      rw [hcand]
      simp [sortStable, hlines]
    have hcs : classifyStatus true (if countOk then s.length else 0) 0 = Status.success :=
      (classifyStatus_eq_success _ _ _).mpr ⟨rfl, by omega⟩
    simp only [process_dwg_file, hfb, hcs, if_true]

unseal Rat.add Rat.sub Rat.mul Rat.inv in
/-- C8 witness (Scenario C): the empty snapshot has no candidates and
no lines; the outcome is `success`, `borderFound = false`, zero
deletions. -/
theorem c8_witness :
    process_dwg_file true true true (fun _ => true) ([] : List Entity) =
      ⟨Status.success, false, emptyKind, 0, 0⟩ := by
  have h := (c8_no_border ([] : List Entity) true (fun _ => true)).2 (by decide) (by decide)
  simpa using h

/- ### Line-rectangle detector: structure of the produced bounds -/

theorem findRect_mem (hl vl : List LineData) (t : ℚ) (a b c d : LineData)
    (h : find_rectangle_from_lines hl vl t = some (a, b, c, d)) :
    a ∈ hl ∧ b ∈ hl ∧ c ∈ vl ∧ d ∈ vl := by
  unfold find_rectangle_from_lines at h
  obtain ⟨h1, hm1, h1e⟩ := List.exists_of_findSome?_eq_some h
  obtain ⟨h2, hm2, h2e⟩ := List.exists_of_findSome?_eq_some h1e
  split at h2e
  · exact absurd h2e (by simp)
  · obtain ⟨v1, hm3, h3e⟩ := List.exists_of_findSome?_eq_some h2e
    obtain ⟨v2, hm4, h4e⟩ := List.exists_of_findSome?_eq_some h3e
    split at h4e
    · exact absurd h4e (by simp)
    · split at h4e
      · simp only [Option.some.injEq, Prod.mk.injEq] at h4e
        obtain ⟨rfl, rfl, rfl, rfl⟩ := h4e
        exact ⟨hm1, hm2, hm3, hm4⟩
      · exact absurd h4e (by simp)

theorem ladderSearch_mem (hl vl : List LineData) (ts : List ℚ)
    (r : LineData × LineData × LineData × LineData)
    (h : ladderSearch hl vl ts = some r) :
    ∃ t ∈ ts, find_rectangle_from_lines hl vl t = some r := by
  induction ts with
  | nil => simp [ladderSearch] at h
  | cons t ts ih =>
    unfold ladderSearch at h
    cases hf : find_rectangle_from_lines hl vl t with
    | some r2 =>
      rw [hf] at h
      exact ⟨t, List.mem_cons_self _ _, by rw [hf]; exact h⟩
    | none =>
      rw [hf] at h
      obtain ⟨u, hu, hue⟩ := ih h
      exact ⟨u, List.mem_cons_of_mem _ hu, hue⟩

theorem mem_horizLines (s : List Entity) (l : LineData) (h : l ∈ horizLines s) :
    l ∈ collectLines s ∧ 2 * dyAbs l < dxAbs l := by
  unfold horizLines at h
  rw [List.mem_filter] at h
  exact ⟨h.1, by simpa using h.2⟩

theorem mem_vertLines (s : List Entity) (l : LineData) (h : l ∈ vertLines s) :
    l ∈ collectLines s ∧ 2 * dxAbs l < dyAbs l := by
  unfold vertLines at h
  rw [List.mem_filter] at h
  exact ⟨h.1, by simpa using h.2⟩

theorem horizClass_weak (l : LineData) (h : 2 * dyAbs l < dxAbs l) :
    dyAbs l < dxAbs l := by
  have h0 : 0 ≤ dyAbs l := abs_nonneg _
  linarith

theorem vertClass_weak (l : LineData) (h : 2 * dxAbs l < dyAbs l) :
    dxAbs l < dyAbs l := by
  have h0 : 0 ≤ dxAbs l := abs_nonneg _
  linarith

theorem boundsFromRect_quad (A B C D : LineData)
    (hA : dyAbs A < dxAbs A) (hB : dyAbs B < dxAbs B)
    (hC : dxAbs C < dyAbs C) (hD : dxAbs D < dyAbs D) :
    ∃ bot top lft rgt : LineData,
      ((bot = A ∧ top = B) ∨ (bot = B ∧ top = A)) ∧
      ((lft = C ∧ rgt = D) ∨ (lft = D ∧ rgt = C)) ∧
      lineCY bot ≤ lineCY top ∧ lineCX lft ≤ lineCX rgt ∧
      boundsFromRect [A, B, C, D] =
        (⟨lineCX lft, lineCY bot, lineCX rgt, lineCY top⟩,
          [bot.handle, top.handle, lft.handle, rgt.handle]) := by
  have hfH : [A, B, C, D].filter (fun l => decide (dyAbs l < dxAbs l)) = [A, B] := by
    simp [List.filter, hA, hB, asymm hC, asymm hD]
  have hfV : [A, B, C, D].filter (fun l => decide (dxAbs l < dyAbs l)) = [C, D] := by
    simp [List.filter, asymm hA, asymm hB, hC, hD]
  by_cases hAB : lineCY A ≤ lineCY B
  · by_cases hCD : lineCX C ≤ lineCX D
    · refine ⟨A, B, C, D, Or.inl ⟨rfl, rfl⟩, Or.inl ⟨rfl, rfl⟩, hAB, hCD, ?_⟩
      simp only [boundsFromRect]
      rw [hfH, hfV]
      simp [sortStable, insertStable, cyLe, cxLe, hAB, hCD]
    · have hDC : lineCX D ≤ lineCX C := le_of_not_le hCD
      refine ⟨A, B, D, C, Or.inl ⟨rfl, rfl⟩, Or.inr ⟨rfl, rfl⟩, hAB, hDC, ?_⟩
      simp only [boundsFromRect]
      rw [hfH, hfV]
      simp [sortStable, insertStable, cyLe, cxLe, hAB, hCD]
  · have hBA : lineCY B ≤ lineCY A := le_of_not_le hAB
    by_cases hCD : lineCX C ≤ lineCX D
    · refine ⟨B, A, C, D, Or.inr ⟨rfl, rfl⟩, Or.inl ⟨rfl, rfl⟩, hBA, hCD, ?_⟩
      simp only [boundsFromRect]
      rw [hfH, hfV]
      simp [sortStable, insertStable, cyLe, cxLe, hAB, hCD]
    · have hDC : lineCX D ≤ lineCX C := le_of_not_le hCD
      refine ⟨B, A, D, C, Or.inr ⟨rfl, rfl⟩, Or.inr ⟨rfl, rfl⟩, hBA, hDC, ?_⟩
      simp only [boundsFromRect]
      rw [hfH, hfV]
      simp [sortStable, insertStable, cyLe, cxLe, hAB, hCD]

theorem quad_conclusion (s : List Entity) (b : BBox) (hlist : List String)
    (A B C D : LineData)
    (hmA : A ∈ collectLines s) (hmB : B ∈ collectLines s)
    (hmC : C ∈ collectLines s) (hmD : D ∈ collectLines s)
    (hA : 2 * dyAbs A < dxAbs A) (hB : 2 * dyAbs B < dxAbs B)
    (hC : 2 * dxAbs C < dyAbs C) (hD : 2 * dxAbs D < dyAbs D)
    (heq : boundsFromRect [A, B, C, D] = (b, hlist)) :
    ∃ bot top lft rgt : LineData,
      bot ∈ collectLines s ∧ top ∈ collectLines s ∧
      lft ∈ collectLines s ∧ rgt ∈ collectLines s ∧
      2 * dyAbs bot < dxAbs bot ∧ 2 * dyAbs top < dxAbs top ∧
      2 * dxAbs lft < dyAbs lft ∧ 2 * dxAbs rgt < dyAbs rgt ∧
      lineCY bot ≤ lineCY top ∧ lineCX lft ≤ lineCX rgt ∧
      b = ⟨(lft.sx + lft.ex) / 2, (bot.sy + bot.ey) / 2,
           (rgt.sx + rgt.ex) / 2, (top.sy + top.ey) / 2⟩ ∧
      hlist = [bot.handle, top.handle, lft.handle, rgt.handle] := by
  obtain ⟨bot, top, lft, rgt, hbt, hlr, hyy, hxx, hbfr⟩ :=
    boundsFromRect_quad A B C D (horizClass_weak _ hA) (horizClass_weak _ hB)
      (vertClass_weak _ hC) (vertClass_weak _ hD)
  rw [hbfr] at heq
  simp only [Prod.mk.injEq] at heq
  obtain ⟨hbeq, hheq⟩ := heq
  refine ⟨bot, top, lft, rgt, ?_, ?_, ?_, ?_, ?_, ?_, ?_, ?_,
    hyy, hxx, hbeq.symm, hheq.symm⟩
  · rcases hbt with ⟨rfl, -⟩ | ⟨rfl, -⟩ <;> assumption
  · rcases hbt with ⟨-, rfl⟩ | ⟨-, rfl⟩ <;> assumption
  · rcases hlr with ⟨rfl, -⟩ | ⟨rfl, -⟩ <;> assumption
  · rcases hlr with ⟨-, rfl⟩ | ⟨-, rfl⟩ <;> assumption
  · rcases hbt with ⟨rfl, -⟩ | ⟨rfl, -⟩ <;> assumption
  · rcases hbt with ⟨-, rfl⟩ | ⟨-, rfl⟩ <;> assumption
  · rcases hlr with ⟨rfl, -⟩ | ⟨rfl, -⟩ <;> assumption
  · rcases hlr with ⟨-, rfl⟩ | ⟨-, rfl⟩ <;> assumption

theorem find_lines_char (s : List Entity) (b : BBox) (hlist : List String)
    (h : find_border_from_longest_lines s = some (b, hlist)) :
    ∃ bot top lft rgt : LineData,
      bot ∈ collectLines s ∧ top ∈ collectLines s ∧
      lft ∈ collectLines s ∧ rgt ∈ collectLines s ∧
      2 * dyAbs bot < dxAbs bot ∧ 2 * dyAbs top < dxAbs top ∧
      2 * dxAbs lft < dyAbs lft ∧ 2 * dxAbs rgt < dyAbs rgt ∧
      lineCY bot ≤ lineCY top ∧ lineCX lft ≤ lineCX rgt ∧
      b = ⟨(lft.sx + lft.ex) / 2, (bot.sy + bot.ey) / 2,
           (rgt.sx + rgt.ex) / 2, (top.sy + top.ey) / 2⟩ ∧
      hlist = [bot.handle, top.handle, lft.handle, rgt.handle] := by
  unfold find_border_from_longest_lines at h
  split at h
  · exact absurd h (by simp)
  · split at h
    case _ h0 h1 hr v0 v1 vr hsH hsV =>
      dsimp only at h
      cases hlad : ladderSearch ((h0 :: h1 :: hr).take 30)
          ((v0 :: v1 :: vr).take 30) toleranceLadder with
      | some quad =>
        obtain ⟨a, a2, c, d⟩ := quad
        rw [hlad] at h
        simp only [Option.some.injEq] at h
        obtain ⟨t, -, hfr⟩ := ladderSearch_mem _ _ _ _ hlad
        obtain ⟨hma, hmb, hmc, hmd⟩ := findRect_mem _ _ _ _ _ _ _ hfr
        have hA := mem_horizLines s a (by
          have h2 := List.mem_of_mem_take hma
          rw [← hsH] at h2
          rwa [mem_sortStable] at h2)
        have hB := mem_horizLines s a2 (by
          have h2 := List.mem_of_mem_take hmb
          rw [← hsH] at h2
          rwa [mem_sortStable] at h2)
        have hC := mem_vertLines s c (by
          have h2 := List.mem_of_mem_take hmc
          rw [← hsV] at h2
          rwa [mem_sortStable] at h2)
        have hD := mem_vertLines s d (by
          have h2 := List.mem_of_mem_take hmd
          rw [← hsV] at h2
          rwa [mem_sortStable] at h2)
        exact quad_conclusion s b hlist a a2 c d hA.1 hB.1 hC.1 hD.1
          hA.2 hB.2 hC.2 hD.2 h
      | none =>
        rw [hlad] at h
        simp only [Option.some.injEq] at h
        have hA := mem_horizLines s h0 (by
          have h2 : h0 ∈ sortStable lenGe (horizLines s) := by rw [hsH]; simp
          rwa [mem_sortStable] at h2)
        have hB := mem_horizLines s h1 (by
          have h2 : h1 ∈ sortStable lenGe (horizLines s) := by rw [hsH]; simp
          rwa [mem_sortStable] at h2)
        have hC := mem_vertLines s v0 (by
          have h2 : v0 ∈ sortStable lenGe (vertLines s) := by rw [hsV]; simp
          rwa [mem_sortStable] at h2)
        have hD := mem_vertLines s v1 (by
          have h2 : v1 ∈ sortStable lenGe (vertLines s) := by rw [hsV]; simp
          rwa [mem_sortStable] at h2)
        exact quad_conclusion s b hlist h0 h1 v0 v1 hA.1 hB.1 hC.1 hD.1
          hA.2 hB.2 hC.2 hD.2 h
    case _ =>
      exact absurd h (by simp)

/-- C7: whenever the line-rectangle detector produces a candidate, its
bounds are built from the MIDPOINTS of the four chosen lines: `minX` /
`maxX` are the center abscissae `(sx + ex) / 2` of the left and right
vertical lines, `minY` / `maxY` the center ordinates `(sy + ey) / 2`
of the bottom and top horizontal lines — not the corner intersections;
the contributing handles are exactly those four lines. -/
theorem c7_midpoint_bounds (s : List Entity) (b : BBox) (hlist : List String)
    (h : find_border_from_longest_lines s = some (b, hlist)) :
    ∃ bot top lft rgt : LineData,
      bot ∈ collectLines s ∧ top ∈ collectLines s ∧
      lft ∈ collectLines s ∧ rgt ∈ collectLines s ∧
      2 * dyAbs bot < dxAbs bot ∧ 2 * dyAbs top < dxAbs top ∧
      2 * dxAbs lft < dyAbs lft ∧ 2 * dxAbs rgt < dyAbs rgt ∧
      lineCY bot ≤ lineCY top ∧ lineCX lft ≤ lineCX rgt ∧
      b = ⟨(lft.sx + lft.ex) / 2, (bot.sy + bot.ey) / 2,
           (rgt.sx + rgt.ex) / 2, (top.sy + top.ey) / 2⟩ ∧
      hlist = [bot.handle, top.handle, lft.handle, rgt.handle] :=
  find_lines_char s b hlist h

unseal Rat.add Rat.sub Rat.mul Rat.inv in
/-- C7 witness: the concrete 100 x 80 rectangle snapshot yields
midpoint bounds `(0, 0, 100, 80)` and the four line handles. -/
theorem c7_witness :
    ∃ bot top lft rgt : LineData,
      bot ∈ collectLines c7Demo ∧ top ∈ collectLines c7Demo ∧
      lft ∈ collectLines c7Demo ∧ rgt ∈ collectLines c7Demo ∧
      2 * dyAbs bot < dxAbs bot ∧ 2 * dyAbs top < dxAbs top ∧
      2 * dxAbs lft < dyAbs lft ∧ 2 * dxAbs rgt < dyAbs rgt ∧
      lineCY bot ≤ lineCY top ∧ lineCX lft ≤ lineCX rgt ∧
      (⟨0, 0, 100, 80⟩ : BBox) =
        ⟨(lft.sx + lft.ex) / 2, (bot.sy + bot.ey) / 2,
         (rgt.sx + rgt.ex) / 2, (top.sy + top.ey) / 2⟩ ∧
      (["h1", "h2", "v1", "v2"] : List String) =
        [bot.handle, top.handle, lft.handle, rgt.handle] :=
  c7_midpoint_bounds c7Demo ⟨0, 0, 100, 80⟩ ["h1", "h2", "v1", "v2"] (by decide)

unseal Rat.add Rat.sub Rat.mul Rat.inv in
/-- C9 counterexample: on `c9Demo` no quadruple connects at any ladder
tolerance, the fallback picks the two longest lines of each class, and
the two vertical lines share center abscissa 5000 — the produced
candidate has width 0 and area 0, refuting the claim that every
produced candidate has area strictly greater than 0. -/
theorem c9_counterexample :
    find_border_from_longest_lines c9Demo =
      some (⟨5000, 0, 5000, 1000⟩, ["a", "b", "c", "d"]) ∧
    bboxArea ⟨5000, 0, 5000, 1000⟩ = 0 := by
  constructor
  · decide
  · decide

/-- C9 (amended): every candidate produced by the block, layer, face,
or polyline detector has area strictly greater than 0; the
line-rectangle fallback guarantees only area at least 0 — it can
produce a degenerate candidate of zero width or height (see the
counterexample), so its area is merely nonnegative. -/
theorem c9_amended (s : List Entity) (b : BBox) (hs : List String) :
    (find_border_block_reference s = some (b, hs) → 0 < bboxArea b) ∧
    (find_border_by_layer s = some (b, hs) → 0 < bboxArea b) ∧
    (find_largest_3dface s = some (b, hs) → 0 < bboxArea b) ∧
    (find_largest_rectangular_polyline s = some (b, hs) → 0 < bboxArea b) ∧
    (find_border_from_longest_lines s = some (b, hs) → 0 ≤ bboxArea b) := by
  refine ⟨?_, ?_, ?_, ?_, ?_⟩
  · intro h
    unfold find_border_block_reference at h
    cases hf : s.foldl blockStep none with
    | none => rw [hf] at h; simp at h
    | some p =>
      rw [hf] at h
      simp only [Option.map_some', Option.some.injEq, Prod.mk.injEq] at h
      obtain ⟨hb, -⟩ := h
      obtain ⟨hw, hh⟩ := block_fold_bounds s p.1 p.2.1 p.2.2 (by rw [hf])
      rw [← hb]
      exact mul_pos (lt_trans (by norm_num) hw) (lt_trans (by norm_num) hh)
  · intro h
    unfold find_border_by_layer at h
    split at h
    · exact absurd h (by simp)
    · split at h
      · exact absurd h (by simp)
      · split at h
        · exact absurd h (by simp)
        · rename_i u hu hwh ha
          simp only [Option.some.injEq, Prod.mk.injEq] at h
          obtain ⟨rfl, -⟩ := h
          push_neg at hwh
          exact mul_pos (lt_of_lt_of_le (by norm_num) hwh.1)
            (lt_of_lt_of_le (by norm_num) hwh.2)
  · intro h
    unfold find_largest_3dface at h
    cases hf : s.foldl faceStep none with
    | none => rw [hf] at h; simp at h
    | some p =>
      rw [hf] at h
      simp only [Option.map_some', Option.some.injEq, Prod.mk.injEq] at h
      obtain ⟨hb, -⟩ := h
      obtain ⟨hw, hh⟩ := face_fold_bounds s p.1 p.2.1 p.2.2 (by rw [hf])
      rw [← hb]
      exact mul_pos hw hh
  · intro h
    unfold find_largest_rectangular_polyline at h
    cases hf : s.foldl polyStep none with
    | none => rw [hf] at h; simp at h
    | some p =>
      rw [hf] at h
      simp only [Option.map_some', Option.some.injEq, Prod.mk.injEq] at h
      obtain ⟨hb, -⟩ := h
      obtain ⟨hw, hh⟩ := poly_fold_bounds s p.1 p.2.1 p.2.2 (by rw [hf])
      rw [← hb]
      exact mul_pos hw hh
  · intro h
    obtain ⟨bot, top, lft, rgt, -, -, -, -, -, -, -, -, hyy, hxx, hbeq, -⟩ :=
      find_lines_char s b hs h
    subst hbeq
    exact mul_nonneg (sub_nonneg.mpr hxx) (sub_nonneg.mpr hyy)

unseal Rat.add Rat.sub Rat.mul Rat.inv in
/-- C9 witness: the polyline detector on a concrete snapshot produces
the 200 x 100 candidate, whose area is positive. -/
theorem c9_witness : 0 < bboxArea ⟨0, 0, 200, 100⟩ :=
  (c9_amended [c9Poly] ⟨0, 0, 200, 100⟩ ["P"]).2.2.2.1 (by decide)

/-- C10: the pruner first classifies every snapshot entity against the
bounds, extending the deletion set, without touching the document; no
delete request is issued before the scan is complete. Formally, after
`n <= length` steps of the pruner machine, the document still equals
the initial snapshot, the accumulated deletion set is exactly the
filter of the first `n` entities of that initial snapshot, and no
delete has been issued (`delIdx = 0`). -/
theorem c10_two_phase (bounds : BBox) (hs : List String) (delOk : Entity → Bool)
    (doc : List Entity) (n : Nat) (hn : n ≤ doc.length) :
    ((pruneStep bounds hs delOk)^[n] (pruneInit doc)).doc = doc ∧
    ((pruneStep bounds hs delOk)^[n] (pruneInit doc)).toDelete =
      entitiesToDelete (doc.take n) bounds hs ∧
    ((pruneStep bounds hs delOk)^[n] (pruneInit doc)).scanIdx = n ∧
    ((pruneStep bounds hs delOk)^[n] (pruneInit doc)).delIdx = 0 := by
  induction n with
  | zero => exact ⟨rfl, by simp [pruneInit, entitiesToDelete], rfl, rfl⟩
  | succ n ih =>
    obtain ⟨hdoc, htd, hscan, hdel⟩ := ih (Nat.le_of_succ_le hn)
    have hlt : n < doc.length := hn
    rw [Function.iterate_succ_apply']
    set st := (pruneStep bounds hs delOk)^[n] (pruneInit doc) with hst
    obtain ⟨e, he⟩ : ∃ e, doc[n]? = some e := by
      rw [List.getElem?_eq_getElem hlt]; exact ⟨_, rfl⟩
    have hstep : pruneStep bounds hs delOk st =
        { st with
            scanIdx := st.scanIdx + 1,
            toDelete :=
              if shouldDelete bounds hs e then st.toDelete ++ [e]
              else st.toDelete } := by
      unfold pruneStep
      rw [hdoc, hscan, he]
    rw [hstep]
    have htake : doc.take (n + 1) = doc.take n ++ [e] := by
      rw [List.take_succ, he]
      simp
    refine ⟨hdoc, ?_, by simp [hscan], hdel⟩
    show (if shouldDelete bounds hs e then st.toDelete ++ [e] else st.toDelete) =
      entitiesToDelete (doc.take (n + 1)) bounds hs
    rw [htd]
    simp only [entitiesToDelete, htake, List.filter_append]
    cases hsd : shouldDelete bounds hs e <;> simp [List.filter, hsd]

unseal Rat.add Rat.sub Rat.mul Rat.inv in
/-- C10 witness: one scan step on a one-entity document leaves the
document untouched, records the classification, and issues no
delete. -/
theorem c10_witness :
    ((pruneStep ⟨0, 0, 5, 5⟩ [] (fun _ => true))^[1] (pruneInit [c10Ent])).doc =
      [c10Ent] ∧
    ((pruneStep ⟨0, 0, 5, 5⟩ [] (fun _ => true))^[1] (pruneInit [c10Ent])).toDelete =
      entitiesToDelete ([c10Ent].take 1) ⟨0, 0, 5, 5⟩ [] ∧
    ((pruneStep ⟨0, 0, 5, 5⟩ [] (fun _ => true))^[1] (pruneInit [c10Ent])).scanIdx = 1 ∧
    ((pruneStep ⟨0, 0, 5, 5⟩ [] (fun _ => true))^[1] (pruneInit [c10Ent])).delIdx = 0 :=
  c10_two_phase ⟨0, 0, 5, 5⟩ [] (fun _ => true) [c10Ent] 1 (by decide)
